import Mathlib

/-!
Verification development for the multidata-rag-project repository.

This file gives a shallow embedding, in Lean 4, of the algorithmic core of the
repository's Python services and proves properties of that embedding:

* `app/services/document_service.py` — the fallback token-window chunker
  (`chunk_text`);
* `app/services/docling_service.py`  — the chunk merger and conversion
  (`chunk_with_hybrid`);
* `app/services/sql_service.py`      — the text-to-SQL approval workflow
  (`execute_approved_query`, `generate_sql_for_approval`);
* `app/services/rag_service.py`      — the RAG orchestrator (`generate_answer`,
  `_build_context`, `_format_sources`);
* `app/services/local_storage.py`    — the local storage backend's existence
  check and save operations;
* `app/services/vector_service.py`   — vector upsert metadata preparation
  (`add_documents`) and search result formatting (`search`).

External collaborators (the BPE tokenizer, the LLM, the SQL executor, the
vector index, the Redis-backed cache transport) are modelled as parameters,
following the collaborator contracts of the specification.  Python `str`
operations are embedded as code-point-list operations (`s.data`), which
matches Python semantics: `len`, slicing and `startswith` on `str` work on
code points.
-/

/-! ## Python string primitives

Embeddings of the Python string operations the services use.  Python's
`str.strip()` removes leading and trailing whitespace, `str.upper()`
upper-cases (here: ASCII, which is all the SQL prefix check needs),
`s[:n]` takes the first `n` code points, and `str.startswith` is a
prefix test. -/

def pyIsSpace (c : Char) : Bool :=
  c = ' ' ∨ c = '\t' ∨ c = '\n' ∨ c = '\r' ∨ c = '\x0b' ∨ c = '\x0c'

/-- Python `str.strip()` with no arguments: drop whitespace from both ends. -/
def pyStrip (s : String) : String :=
  String.mk (((s.data.dropWhile pyIsSpace).reverse.dropWhile pyIsSpace).reverse)

def upperAscii (c : Char) : Char :=
  if 'a' ≤ c ∧ c ≤ 'z' then Char.ofNat (c.toNat - 32) else c

/-- Python `str.upper()` (ASCII range; the SQL keyword check only involves
ASCII letters). -/
def pyUpper (s : String) : String := String.mk (s.data.map upperAscii)

/-- Prefix test on code-point lists: Python `str.startswith`. -/
def listStartsWith [DecidableEq β] : List β → List β → Bool
  | _, [] => true
  | [], _ :: _ => false
  | a :: as, b :: bs => a = b && listStartsWith as bs

/-- Python `s[:n]` on a `str`: first `n` code points. -/
def pyTake (s : String) (n : Nat) : String := String.mk (s.data.take n)

/-! ## Tokenizer

The services tokenize with `tiktoken`'s `cl100k_base` encoding.  The
tokenizer is an external collaborator; per the specification's external
interface contract it provides `encode : text → token sequence` and
`decode : tokens → text`.  We model it as a structure parameterized by the
token type. -/

structure Tokenizer (α : Type) where
  enc : String → List α
  dec : List α → String

/-- A concrete tokenizer used for witnesses: every code point is one token.
It satisfies the specification's reversibility contract definitionally. -/
def charTok : Tokenizer Char :=
  { enc := fun s => s.data, dec := fun ts => String.mk ts }

/-! ## Fallback chunker — `document_service.chunk_text`

`chunk_text` (document_service.py, lines 74–146) encodes the whole text
once, then slides a window: `end_idx = min(start_idx + chunk_size, len)`,
emits `tokens[start_idx:end_idx]` decoded, advances
`start_idx += chunk_size - overlap`, and breaks once `end_idx` reached the
end.  Python's `while` loop has no built-in bound; we model one iteration
per unit of fuel and return `none` when the fuel runs out.  For every
terminating run of the Python loop at most `len(tokens) + 1` iterations
occur, so with fuel `len(tokens) + 1` (used by `chunk_text` below) the
model returns `some` exactly on the terminating runs and `none` exactly
when the Python loop runs forever.  (When `overlap ≥ chunk_size` and the
text is longer than one window, Python's `start_idx` stops advancing — or
decreases without the break condition ever holding — so the loop never
terminates; the model's truncated subtraction keeps `start_idx` fixed, and
the loop likewise never reaches the break, diverging identically.  The
chunks accumulated during a divergent run are never returned, so they are
unobservable.)

The record fields mirror the Python chunk dict.  `start_char` is Python's
`max(0, previous_end_char - overlap * 4)` (truncated subtraction), and
`chunk_index` is `len(chunks)` at append time. -/

structure FChunk where
  text : String
  chunk_index : Nat
  token_count : Nat
  start_char : Nat
  end_char : Nat
deriving DecidableEq, Repr

def chunkTextLoop (dec : List α → String) (tokens : List α) (chunk_size overlap : Nat) :
    Nat → Nat → List FChunk → Option (List FChunk)
  | 0, _, _ => none
  | fuel + 1, start_idx, chunks =>
    if start_idx < tokens.length then
      let end_idx := min (start_idx + chunk_size) tokens.length
      let chunk_tokens := (tokens.drop start_idx).take (end_idx - start_idx)
      let chunk_txt := dec chunk_tokens
      let start_char := match chunks.getLast? with
        | some prev => prev.end_char - overlap * 4
        | none => 0
      let c : FChunk :=
        { text := chunk_txt
          chunk_index := chunks.length
          token_count := chunk_tokens.length
          start_char := start_char
          end_char := start_char + chunk_txt.length }
      if tokens.length ≤ end_idx then some (chunks ++ [c])
      else chunkTextLoop dec tokens chunk_size overlap fuel
        (start_idx + (chunk_size - overlap)) (chunks ++ [c])
    else some chunks

/-- Embedding of `chunk_text(text, chunk_size, overlap)`.  The tokenizer is
passed in (the Python code obtains the `cl100k_base` encoder, falling back
to the gpt-4 encoder; both are external).  `none` models a non-terminating
run of the Python loop. -/
def chunk_text (tok : Tokenizer α) (text : String) (chunk_size overlap : Nat) :
    Option (List FChunk) :=
  chunkTextLoop tok.dec (tok.enc text) chunk_size overlap
    ((tok.enc text).length + 1) 0 []


/-! ## Chunk merger — `docling_service.chunk_with_hybrid`

The raw chunks come from Docling's `HybridChunker` (an external
collaborator); each carries text, a heading list, page numbers, doc-item
references and captions.  `chunk_with_hybrid` (docling_service.py, lines
110–214) first greedily merges consecutive raw chunks (lines 110–154) and
then converts merged chunks to plain dictionaries (lines 158–207).

Headings and page numbers are modelled with abstract element types `H`
and `P` (heading objects are compared with `in`/`not in` — i.e. equality —
during the merge, and only projected to their `.text` during conversion). -/

structure RawChunk (H P : Type) where
  text : String
  headings : List H
  page_numbers : List P
  doc_items : List String
  captions : List String
deriving DecidableEq, Repr

/-- The metadata-merge pattern of lines 130–146: walk the incoming list and
append each element not already present.  The same loop is written twice in
the source, once for `meta.headings` (lines 133–135) and once for
`meta.origin.page_numbers` (lines 144–146); the guards for `None`/absent
lists on either side collapse to this function once `None` and `[]` are
both modelled as `[]`. -/
def appendNewElems [DecidableEq β] (cur incoming : List β) : List β :=
  incoming.foldl (fun acc h => if h ∈ acc then acc else acc ++ [h]) cur

/-- One merge step (lines 126–146): texts joined with a paragraph
separator, headings and page numbers reconciled.  `doc_items` and
`captions` of the incoming chunk are not merged by the source. -/
def mergePair [DecidableEq H] [DecidableEq P] (cur next : RawChunk H P) : RawChunk H P :=
  { text := cur.text ++ "\n\n" ++ next.text
    headings := appendNewElems cur.headings next.headings
    page_numbers := appendNewElems cur.page_numbers next.page_numbers
    doc_items := cur.doc_items
    captions := cur.captions }

/-- The merge loop of lines 110–154.  `tc` is the token counter
`len(tiktoken_encoder.encode(·))`.  `cur` is `current_merged`
(`none` = Python `None`), `acc` is `merged_chunks`. -/
def mergeLoop [DecidableEq H] [DecidableEq P] (tc : String → Nat) (min_tokens max_tokens : Nat) :
    List (RawChunk H P) → Option (RawChunk H P) → List (RawChunk H P) → List (RawChunk H P)
  | [], none, acc => acc
  | [], some cur, acc => acc ++ [cur]
  | chunk :: rest, none, acc => mergeLoop tc min_tokens max_tokens rest (some chunk) acc
  | chunk :: rest, some cur, acc =>
    let token_count := tc chunk.text
    let current_tokens := tc cur.text
    let combined_tokens := current_tokens + token_count
    if current_tokens < min_tokens ∧ combined_tokens ≤ max_tokens then
      mergeLoop tc min_tokens max_tokens rest (some (mergePair cur chunk)) acc
    else
      mergeLoop tc min_tokens max_tokens rest (some chunk) (acc ++ [cur])

def merged_chunks [DecidableEq H] [DecidableEq P] (tc : String → Nat)
    (min_tokens max_tokens : Nat) (raw : List (RawChunk H P)) : List (RawChunk H P) :=
  mergeLoop tc min_tokens max_tokens raw none []

/-- Converted chunk dictionary (lines 194–205). -/
structure CChunk where
  text : String
  chunk_index : Nat
  token_count : Nat
  start_char : Nat
  end_char : Nat
  headings : List String
  page_numbers : List Nat
  doc_items : List String
  captions : List String
deriving DecidableEq, Repr

/-- The conversion loop of lines 159–207: enumerate the merged chunks,
re-count tokens from the text, and accumulate character positions.
`hText` is the `.text` projection of a heading object (`h.text`); page
numbers are modelled directly as naturals; `doc_items` keeps the first 3
items truncated to 100 characters. -/
def convertMerged (tc : String → Nat) (hText : H → String) :
    List (RawChunk H Nat) → Nat → Nat → List CChunk
  | [], _, _ => []
  | chunk :: rest, idx, char_position =>
    let chunk_txt := chunk.text
    let token_count := tc chunk_txt
    let start_char := char_position
    let end_char := start_char + chunk_txt.length
    { text := chunk_txt
      chunk_index := idx
      token_count := token_count
      start_char := start_char
      end_char := end_char
      headings := chunk.headings.map hText
      page_numbers := chunk.page_numbers
      doc_items := (chunk.doc_items.take 3).map (fun s => pyTake s 100)
      captions := chunk.captions } :: convertMerged tc hText rest (idx + 1) end_char

/-- Embedding of `chunk_with_hybrid(doc, max_tokens, min_tokens)` from the
raw-chunk list produced by the external `HybridChunker` onward: merge, then
convert.  The token counter is `len(tok.enc ·)`. -/
def chunk_with_hybrid [DecidableEq H] (tok : Tokenizer α) (hText : H → String)
    (max_tokens min_tokens : Nat) (raw : List (RawChunk H Nat)) : List CChunk :=
  convertMerged (fun s => (tok.enc s).length) hText
    (merged_chunks (fun s => (tok.enc s).length) min_tokens max_tokens raw) 0 0

/-- First-seen-order deduplication (specification wording for the heading
reconciliation): keep the first occurrence of each element. -/
def dedupFirstAux [DecidableEq β] (seen : List β) : List β → List β
  | [] => []
  | h :: t => if h ∈ seen then dedupFirstAux seen t else h :: dedupFirstAux (h :: seen) t

def dedupFirst [DecidableEq β] (l : List β) : List β := dedupFirstAux [] l

/-! ## Text-to-SQL approval workflow — `sql_service.TextToSQLService`

The workflow state is the in-memory `pending_queries` dict plus the two
SQL-related caches of the `QueryCacheService`.  The `QueryCacheService`
class itself is repository code that is not part of the sources given
here; its behaviour is modelled from the specification (see
`CacheTypeState` below).  SQL execution and SQL generation are external
calls, passed in as `Except`-valued parameters (`.error` models a raised
exception). -/

/-- Pending-query ledger entry (sql_service.py, lines 519–525). -/
structure QueryInfo where
  question : String
  sql : String
  status : String
  generated_at : String
  cache_hit : Bool
deriving DecidableEq, Repr

/-- Value cached at the `sql_result` stage (lines 607–612). -/
structure SqlResultEntry (Row : Type) where
  results : List Row
  result_count : Nat
  sql : String
  executed_at : String
deriving DecidableEq, Repr

/-- Value cached at the `sql_gen` stage (lines 506–510). -/
structure SqlGenEntry where
  sql : String
  explanation : String
  question : String
deriving DecidableEq, Repr

/-- Modelled from the spec: the `QueryCacheService` source file is not
among the given sources; the specification describes it as a keyed
get/set store per cache type with a TTL.  Each cache type is modelled as
a function from key to optional value (a `set` overwrites the key; `get`
reads it; TTL/expiry and the Redis transport are not modelled — a `get`
sees the last `set`).  Cache keys are produced by per-type key-derivation
functions, passed in as parameters. -/
def setKey (m : String → Option β) (k : String) (v : β) : String → Option β :=
  fun x => if x = k then some v else m x

def delKey (m : String → Option β) (k : String) : String → Option β :=
  fun x => if x = k then none else m x

/-- Mutable state touched by the workflow: the pending-query ledger
(`self.pending_queries`) and the two SQL cache types. -/
structure SqlState (Row : Type) where
  pending : String → Option QueryInfo
  sql_result_cache : String → Option (SqlResultEntry Row)
  sql_gen_cache : String → Option SqlGenEntry

/-- The read-only check of line 576:
`sql.strip().upper().startswith("SELECT")`. -/
def isSelectQuery (sql : String) : Bool :=
  listStartsWith (pyUpper (pyStrip sql)).data "SELECT".data

/-- Result dictionaries returned by `execute_approved_query`; one
constructor per return site, fields in source order. -/
inductive ExecResult (Row : Type) where
  | notFound
  | rejected (query_id : String) (message : String)
  | executed (query_id : String) (question : String) (sql : String)
      (results : List Row) (result_count : Nat) (cache_hit : Bool)
      (cached_at : Option String)
  | execError (query_id : String) (message : String)
deriving DecidableEq, Repr

/-- Embedding of `execute_approved_query(query_id, approved)`
(sql_service.py, lines 540–635).

Parameters standing for the environment at this call:
* `runSql` — `self.vanna.execute_sql_async` (`.error` = raised exception);
* `cacheEnabled` — `self.query_cache_service and self.query_cache_service.enabled`;
* `resultKey` — `self.query_cache_service.get_sql_result_key`;
* `now` — `pd.Timestamp.now().isoformat()`.

Notes kept from the source: the cached-result branch requires
`cached_result and "results" in cached_result`; every value this model
ever stores under a result key is a full `SqlResultEntry`, so the
truthiness and key-membership guards always pass on a hit.  On execution
failure (lines 630–635) the source returns the error dictionary without
touching `self.pending_queries`. -/
def execute_approved_query (runSql : String → Except String (List Row))
    (cacheEnabled : Bool) (resultKey : String → String) (now : String)
    (st : SqlState Row) (query_id : String) (approved : Bool) :
    ExecResult Row × SqlState Row :=
  match st.pending query_id with
  | none => (.notFound, st)
  | some query_info =>
    if !approved then
      (.rejected query_id "Query execution cancelled by user",
        { st with pending := delKey st.pending query_id })
    else
      let sql := query_info.sql
      let is_select_query := isSelectQuery sql
      let cached_result :=
        if is_select_query && cacheEnabled then st.sql_result_cache (resultKey sql)
        else none
      match cached_result with
      | some ce =>
        (.executed query_id query_info.question sql ce.results ce.result_count
            true (some ce.executed_at),
          { st with pending := delKey st.pending query_id })
      | none =>
        match runSql sql with
        | .ok results =>
          let st1 :=
            if is_select_query && cacheEnabled then
              { st with sql_result_cache :=
                  (setKey st.sql_result_cache (resultKey sql)
                    ⟨results, results.length, sql, now⟩) }
            else st
          (.executed query_id query_info.question sql results results.length
              false none,
            { st1 with pending := delKey st1.pending query_id })
        | .error e => (.execError query_id e, st)

/-- Result dictionary returned by `generate_sql_for_approval`
(lines 484–492 and 527–535). -/
structure GenResult where
  query_id : String
  question : String
  sql : String
  explanation : String
  status : String
  cache_hit : Bool
  cost_saved : String
deriving DecidableEq, Repr

/-- Embedding of `generate_sql_for_approval(question)` (lines 442–538).

Parameters: `genSql` is the external agent call
(`self.vanna.generate_sql_async`, with the schema context already bound);
`newId` is the fresh `uuid.uuid4()` value; `genKey` is
`get_sql_gen_key`; `isTrained` is `self.is_trained`.  A Lean `.error`
models a raised exception. -/
def generate_sql_for_approval (genSql : Except String String) (newId : String)
    (cacheEnabled : Bool) (genKey : String → String) (now : String)
    (isTrained : Bool) (st : SqlState Row) (question : String) :
    Except String (GenResult × SqlState Row) :=
  if !isTrained then
    .error "Schema context not prepared. Call complete_training() first."
  else
    match (if cacheEnabled then st.sql_gen_cache (genKey question) else none) with
    | some cached =>
      .ok ({ query_id := newId, question := question, sql := cached.sql,
             explanation := cached.explanation, status := "pending_approval",
             cache_hit := true, cost_saved := "$0.08" },
           { st with pending := (setKey st.pending newId
               ⟨question, cached.sql, "pending_approval", now, true⟩) })
    | none =>
      match genSql with
      | .error e => .error ("Failed to generate SQL: " ++ e)
      | .ok sql =>
        let explanation :=
          "This SQL will retrieve data from your database. Please review before approving."
        let st1 :=
          if cacheEnabled then
            { st with sql_gen_cache :=
                setKey st.sql_gen_cache (genKey question) ⟨sql, explanation, question⟩ }
          else st
        .ok ({ query_id := newId, question := question, sql := sql,
               explanation := explanation, status := "pending_approval",
               cache_hit := false, cost_saved := "$0.00" },
             { st1 with pending := (setKey st1.pending newId
                 ⟨question, sql, "pending_approval", now, false⟩) })

/-! ## Vector service — `vector_service.VectorService`

The Pinecone index is external; `add_documents` (vector_service.py, lines
68–131) is embedded up to the point where the prepared vector tuples are
handed to the index, and `search` (lines 133–189) from the point where the
index returns its matches.  Embedding vectors are an abstract type `E`;
relevance scores an abstract type `Score` (floats are not modelled — no
claim depends on score arithmetic).  `headings` and `page_numbers` are
stored as `json.dumps` strings; the serializers are parameters. -/

structure VecMeta where
  filename : String
  chunk_index : Nat
  token_count : Nat
  text : String
  start_char : Nat
  end_char : Nat
  headings : String
  page_numbers : String
  has_context : Bool
deriving DecidableEq, Repr

/-- Embedding of `add_documents(chunks, embeddings, filename, namespace)`
up to the prepared `vectors_to_upsert` list (lines 90–117); the batched
upsert itself only hands these tuples to the external index.  `.error`
models the raised `ValueError` on a length mismatch. -/
def add_documents (dumpsStr : List String → String) (dumpsNat : List Nat → String)
    (chunks : List CChunk) (embeddings : List E) (filename : String) :
    Except String (List (String × E × VecMeta)) :=
  if chunks.length ≠ embeddings.length then
    .error ("Mismatch: " ++ toString chunks.length ++ " chunks but " ++
      toString embeddings.length ++ " embeddings")
  else
    .ok ((chunks.zip embeddings).map (fun ce =>
      (filename ++ "_" ++ toString ce.1.chunk_index, ce.2,
        { filename := filename
          chunk_index := ce.1.chunk_index
          token_count := ce.1.token_count
          text := pyTake ce.1.text 1000
          start_char := ce.1.start_char
          end_char := ce.1.end_char
          headings := dumpsStr ce.1.headings
          page_numbers := dumpsNat ce.1.page_numbers
          has_context := decide (ce.1.headings.length > 0) })))

/-- A match returned by the external index query (`results['matches']`),
carrying the metadata stored at upsert time. -/
structure SearchMatch (Score : Type) where
  id : String
  score : Score
  metadata : VecMeta
deriving Repr

/-- Chunk dictionary formatted by `search` (lines 169–180): `text` is read
back from the stored metadata; the nested `metadata` keeps filename,
chunk_index and token_count.  The stored metadata always carries every
key read here, so the `.get` defaults never fire in this model. -/
structure RetrMeta where
  filename : String
  chunk_index : Nat
  token_count : Nat
deriving DecidableEq, Repr

structure RetrChunk (Score : Type) where
  id : String
  score : Score
  text : String
  metadata : RetrMeta
deriving Repr

def search_format (query_matches : List (SearchMatch Score)) : List (RetrChunk Score) :=
  query_matches.map (fun m =>
    { id := m.id
      score := m.score
      text := m.metadata.text
      metadata :=
        { filename := m.metadata.filename
          chunk_index := m.metadata.chunk_index
          token_count := m.metadata.token_count } })

/-- Search response (lines 182–186); `query_preview` (first five dims of
the query embedding) is omitted — nothing downstream reads it. -/
structure SearchOut (Score : Type) where
  chunks : List (RetrChunk Score)
  total_found : Nat
deriving Repr

def VectorService.search (query_matches : List (SearchMatch Score)) : SearchOut Score :=
  { chunks := search_format query_matches, total_found := (search_format query_matches).length }

/-! ## RAG orchestrator — `rag_service.RAGService`

`generate_answer` (rag_service.py, lines 42–181) composes the external
embedding call, the vector search, context assembly and the generation
call, with a query-level cache.  The external pieces enter as parameters:
`search_chunks` is `search_results['chunks']` for this question,
`llm` is the chat-completion call (system message, user prompt → answer),
`llmUsage`/`embUsage` the usage accounting the external calls report.
The returned triple is (response, rag cache after the call, number of
generation-model calls made). -/

structure LlmUsage where
  prompt_tokens : Nat
  completion_tokens : Nat
  total_tokens : Nat
deriving DecidableEq, Repr

structure CombinedUsage where
  embedding_tokens : Nat
  llm_prompt_tokens : Nat
  llm_completion_tokens : Nat
  total_tokens : Nat
deriving DecidableEq, Repr

structure SourceEntry (Score : Type) where
  filename : String
  chunk_index : Nat
  relevance_score : Score
  preview : String
deriving Repr

/-- The `result` dictionary assembled at step 6 (lines 156–165); also the
value stored in the `rag` cache (line 171) and the shape of the
zero-chunk response (lines 100–107, with `usage = None` and
`sources = []`). -/
structure RagCore (Score : Type) where
  question : String
  answer : String
  chunks_used : Nat
  model : String
  usage : Option CombinedUsage
  sources : Option (List (SourceEntry Score))
deriving Repr

/-- A `generate_answer` return value: the core dictionary plus the
`cache_hit`/`cost_saved` keys, which the zero-chunk response does not
carry (hence `Option`). -/
structure RagResponse (Score : Type) where
  core : RagCore Score
  cache_hit : Option Bool
  cost_saved : Option String
deriving Repr

/-- Context line for one retrieved chunk (lines 196–215).  The metadata a
search result carries has no `headings` key, so `.get('headings', '[]')`
always yields the empty list and the no-section branch of line 213 is
taken. -/
def contextPart (fmtScore : Score → String) (i : Nat) (c : RetrChunk Score) : String :=
  "[Source " ++ toString i ++ ": " ++ c.metadata.filename ++
    " (relevance: " ++ fmtScore c.score ++ ")]\n" ++ c.text ++ "\n"

/-- Embedding of `_build_context(chunks)` (lines 183–217): sources are
enumerated from 1 and joined with a newline.  `fmtScore` renders a score
(`f"{score:.3f}"`). -/
def RAGService.build_context (fmtScore : Score → String)
    (chunks : List (RetrChunk Score)) : String :=
  String.intercalate "\n"
    ((chunks.enumFrom 1).map (fun p => contextPart fmtScore p.1 p.2))

/-- Embedding of `_create_prompt(question, context)` (lines 219–240). -/
def RAGService.create_prompt (question context : String) : String :=
  "You are a helpful assistant. Answer the question based on the provided context.\n\n" ++
  "If the context doesn\x27t contain enough information to answer the question, say \"I don\x27t have enough information to answer that based on the provided documents.\"\n\n" ++
  "Context:\n" ++ context ++ "\n\nQuestion: " ++ question ++ "\n\nAnswer:"

/-- The system message of the generation call (lines 120–124). -/
def ragSystemMessage : String :=
  "You are a helpful assistant that answers questions based on provided context. " ++
  "If the context doesn\x27t contain enough information to answer the question, " ++
  "say so explicitly. Always base your answers on the provided context."

/-- Embedding of `_format_sources(chunks)` (lines 242–262). -/
def RAGService.format_sources (chunks : List (RetrChunk Score)) :
    List (SourceEntry Score) :=
  chunks.map (fun c =>
    { filename := c.metadata.filename
      chunk_index := c.metadata.chunk_index
      relevance_score := c.score
      preview := pyTake c.text 200 ++ "..." })

/-- The canned zero-result answer (line 102). -/
def noInfoAnswer : String :=
  "I don\x27t have enough information to answer that question. Please upload relevant documents first."

/-- Embedding of `generate_answer(question, top_k, namespace,
include_sources)` (lines 42–181).  Every value this model stores in the
`rag` cache is a full `RagCore`, so the truthiness guard of line 79
always passes on a hit.  The wrapping `try`/`except` re-raise (line 181)
is not modelled: the external calls are total parameters here. -/
def generate_answer (cacheEnabled : Bool) (ragCache : String → Option (RagCore Score))
    (ragKey : String → Nat → String) (fmtScore : Score → String)
    (search_chunks : List (RetrChunk Score)) (llm : String → String → String)
    (llmUsage : Option LlmUsage) (embUsage : Option Nat)
    (question : String) (top_k : Nat) (include_sources : Bool) :
    RagResponse Score × (String → Option (RagCore Score)) × Nat :=
  match (if cacheEnabled then ragCache (ragKey question top_k) else none) with
  | some cached_result =>
    ({ core := cached_result, cache_hit := some true, cost_saved := some "$0.05" },
      ragCache, 0)
  | none =>
    let chunks := search_chunks
    if chunks.isEmpty then
      ({ core :=
          { question := question
            answer := noInfoAnswer
            chunks_used := 0
            model := "gpt-4-turbo-preview"
            usage := none
            sources := some [] }
         cache_hit := none
         cost_saved := none }, ragCache, 0)
    else
      let context := RAGService.build_context fmtScore chunks
      let prompt := RAGService.create_prompt question context
      let answer := llm ragSystemMessage prompt
      let combined_usage : CombinedUsage :=
        { embedding_tokens := embUsage.getD 0
          llm_prompt_tokens := (llmUsage.map (fun u => u.prompt_tokens)).getD 0
          llm_completion_tokens := (llmUsage.map (fun u => u.completion_tokens)).getD 0
          total_tokens := embUsage.getD 0 + (llmUsage.map (fun u => u.total_tokens)).getD 0 }
      let result : RagCore Score :=
        { question := question
          answer := answer
          chunks_used := chunks.length
          model := "gpt-4-turbo-preview"
          usage := some combined_usage
          sources := if include_sources then some (RAGService.format_sources chunks) else none }
      let cache1 :=
        if cacheEnabled then setKey ragCache (ragKey question top_k) result else ragCache
      ({ core := result, cache_hit := some false, cost_saved := some "$0.00" }, cache1, 1)

/-! ## Local storage backend — `local_storage.LocalStorageBackend`

The filesystem under `cache_dir` is modelled as a boolean presence map
over (document folder, file name).  Each `save_*` method writes exactly
one file into the document's folder (local_storage.py, lines 89–157);
`exists` (lines 57–87) checks the three required cache files. -/

def fsSave (fs : String → String → Bool) (document_id fname : String) :
    String → String → Bool :=
  fun d f => if d = document_id ∧ f = fname then true else fs d f

def LocalStorageBackend.save_document (fs : String → String → Bool)
    (document_id file_extension : String) : String → String → Bool :=
  fsSave fs document_id ("document." ++ file_extension)

def LocalStorageBackend.save_chunks (fs : String → String → Bool)
    (document_id : String) : String → String → Bool :=
  fsSave fs document_id "chunks.json"

def LocalStorageBackend.save_embeddings (fs : String → String → Bool)
    (document_id : String) : String → String → Bool :=
  fsSave fs document_id "embeddings.npy"

def LocalStorageBackend.save_metadata (fs : String → String → Bool)
    (document_id : String) : String → String → Bool :=
  fsSave fs document_id "metadata.json"

/-- Embedding of `exists(document_id, file_extension)` (lines 57–87): all
of `chunks.json`, `embeddings.npy`, `metadata.json` must be present; the
original `document.<ext>` is not consulted.  `file_extension` is unused by
the local backend (kept for interface compatibility, as in the source). -/
def LocalStorageBackend.exists_check (fs : String → String → Bool)
    (document_id file_extension : String) : Bool :=
  fs document_id "chunks.json" && fs document_id "embeddings.npy" &&
    fs document_id "metadata.json"

/-! ## Specification-side definitions used by the theorems -/

/-- The `i`-th token window of the fallback chunker: the slice of length
`chunk_size` starting at `i * (chunk_size - overlap)`. -/
def tokenWindow (tokens : List α) (chunk_size overlap i : Nat) : List α :=
  (tokens.drop (i * (chunk_size - overlap))).take chunk_size

/-- The fallback-chunker window property: the call terminates with chunks
whose texts decode the successive token windows, whose `token_count` is the
window length and whose `chunk_index` is dense and zero-based; every window
but the last has exactly `chunk_size` tokens; the trailing `overlap` tokens
of a window are the leading `overlap` tokens of the next; the last window
is the whole remainder of the token stream (truncated, no padding). -/
def fallbackWindowSpec (tok : Tokenizer α) (text : String) (chunk_size overlap : Nat) : Prop :=
  ∃ chunks, chunk_text tok text chunk_size overlap = some chunks ∧
    (∀ i (hi : i < chunks.length),
      (chunks.get ⟨i, hi⟩).text =
        tok.dec (tokenWindow (tok.enc text) chunk_size overlap i) ∧
      (chunks.get ⟨i, hi⟩).token_count =
        (tokenWindow (tok.enc text) chunk_size overlap i).length ∧
      (chunks.get ⟨i, hi⟩).chunk_index = i) ∧
    (∀ i, i + 1 < chunks.length →
      (tokenWindow (tok.enc text) chunk_size overlap i).length = chunk_size ∧
      (tokenWindow (tok.enc text) chunk_size overlap i).drop (chunk_size - overlap) =
        (tokenWindow (tok.enc text) chunk_size overlap (i + 1)).take overlap) ∧
    (chunks ≠ [] →
      tokenWindow (tok.enc text) chunk_size overlap (chunks.length - 1) =
        (tok.enc text).drop ((chunks.length - 1) * (chunk_size - overlap)))

/-- Token-count/index invariant for the Docling path: every converted chunk
reports `token_count` equal to the tokenizer count of its own text, and
`chunk_index` equal to its position. -/
def hybridTokenInvariant [DecidableEq H] (tok : Tokenizer α) (hText : H → String)
    (max_tokens min_tokens : Nat) (raw : List (RawChunk H Nat)) : Prop :=
  ∀ j (hj : j < (chunk_with_hybrid tok hText max_tokens min_tokens raw).length),
    ((chunk_with_hybrid tok hText max_tokens min_tokens raw).get ⟨j, hj⟩).token_count =
      (tok.enc ((chunk_with_hybrid tok hText max_tokens min_tokens raw).get ⟨j, hj⟩).text).length ∧
    ((chunk_with_hybrid tok hText max_tokens min_tokens raw).get ⟨j, hj⟩).chunk_index = j

/-- Token-count/index invariant for the fallback path, on every terminating
run. -/
def fallbackTokenInvariant (tok : Tokenizer α) (text : String) (chunk_size overlap : Nat) : Prop :=
  ∀ chunks, chunk_text tok text chunk_size overlap = some chunks →
    ∀ j (hj : j < chunks.length),
      (chunks.get ⟨j, hj⟩).token_count = (tok.enc ((chunks.get ⟨j, hj⟩).text)).length ∧
      (chunks.get ⟨j, hj⟩).chunk_index = j

/-- A resolution outcome that ends the pending entry's life per the
specification: the rejection and execution outcomes (not the not-found or
execution-failure errors). -/
def ExecResult.resolved : ExecResult Row → Bool
  | .executed .. => true
  | .rejected .. => true
  | _ => false

/-- A tokenizer that counts the occurrences of the letter `a`; since the
paragraph separator `"\n\n"` contains no `a`, its token count is exactly
additive across the merger's join, which makes it a convenient concrete
instance of the join-subadditivity hypothesis. -/
def countATok : Tokenizer Unit :=
  { enc := fun s => (s.data.filter (fun ch => ch = 'a')).map (fun _ => ())
    dec := fun _ => "" }

/-- A workflow state holding exactly one pending query, a SELECT, under
identifier `"q1"`, with both caches empty. -/
def singleSelectPending : SqlState Nat :=
  { pending := fun k =>
      if k = "q1" then
        some ⟨"how many customers", "SELECT COUNT(*) FROM customers",
          "pending_approval", "t0", false⟩
      else none
    sql_result_cache := fun _ => none
    sql_gen_cache := fun _ => none }

/-- A workflow state holding exactly one pending query, a non-SELECT
statement, under identifier `"q2"`, with both caches empty. -/
def singleInsertPending : SqlState Nat :=
  { pending := fun k =>
      if k = "q2" then
        some ⟨"add a row", "INSERT INTO customers VALUES (1)",
          "pending_approval", "t0", false⟩
      else none
    sql_result_cache := fun _ => none
    sql_gen_cache := fun _ => none }


/-- Two raw chunks whose texts both fit the ceiling individually; under the
code-point tokenizer their merge (joined with `"\n\n"`) exceeds it. -/
def rawOversizeDemo : List (RawChunk String Nat) :=
  [⟨"aaaa", [], [], [], []⟩, ⟨"bbbbbb", [], [], [], []⟩]

/-- Two raw chunks for the join-additive tokenizer witness. -/
def rawJoinDemo : List (RawChunk String Nat) :=
  [⟨"aa", [], [], [], []⟩, ⟨"b", [], [], [], []⟩]

/-- The specification's heading-merge example: chunk A with headings `[X]`
(and page 1), chunk B with headings `[X, Y]` (and pages 1, 2). -/
def mergeDemoA : RawChunk String Nat := ⟨"ta", ["X"], [1], [], []⟩

def mergeDemoB : RawChunk String Nat := ⟨"tb", ["X", "Y"], [1, 2], [], []⟩

/-- A chunk dictionary as fed to the vector upsert. -/
def vecChunkDemo : CChunk := ⟨"hello", 0, 1, 0, 5, [], [], [], []⟩

/-- The metadata `add_documents` prepares for `vecChunkDemo` (with the
trivial serializers used in the witness). -/
def vecMetaDemo : VecMeta := ⟨"doc.txt", 0, 1, "hello", 0, 5, "[]", "[]", false⟩

/-! ## Helper lemmas -/

theorem chunkTextLoop_spec (dec : List α → String) (tokens : List α) (cs ov : Nat)
    (hov : ov < cs) :
    ∀ fuel start acc, tokens.length + 1 ≤ fuel + start → 1 ≤ fuel →
    ∃ L, chunkTextLoop dec tokens cs ov fuel start acc = some (acc ++ L) ∧
      (tokens.length ≤ start → L = []) ∧
      (start < tokens.length → L ≠ []) ∧
      (∀ j (hj : j < L.length),
        (L.get ⟨j, hj⟩).text = dec ((tokens.drop (start + j * (cs - ov))).take cs) ∧
        (L.get ⟨j, hj⟩).token_count = ((tokens.drop (start + j * (cs - ov))).take cs).length ∧
        (L.get ⟨j, hj⟩).chunk_index = acc.length + j ∧
        (j + 1 < L.length → start + j * (cs - ov) + cs < tokens.length) ∧
        (j + 1 = L.length → tokens.length ≤ start + j * (cs - ov) + cs)) := by
  intro fuel
  induction fuel with
  | zero => intro start acc h1 h2; omega
  | succ f ih =>
    intro start acc h1 h2
    by_cases hs : start < tokens.length
    · by_cases hc : start + cs < tokens.length
      · -- continue case: full window, no break
        have hmin : min (start + cs) tokens.length = start + cs :=
          Nat.min_eq_left (Nat.le_of_lt hc)
        set sc : Nat := (match acc.getLast? with
          | some prev => prev.end_char - ov * 4
          | none => 0) with hsc
        set c : FChunk :=
          { text := dec ((tokens.drop start).take cs)
            chunk_index := acc.length
            token_count := ((tokens.drop start).take cs).length
            start_char := sc
            end_char := sc + (dec ((tokens.drop start).take cs)).length } with hcdef
        have hrec : chunkTextLoop dec tokens cs ov (f + 1) start acc =
            chunkTextLoop dec tokens cs ov f (start + (cs - ov)) (acc ++ [c]) := by
          rw [chunkTextLoop]
          simp only [if_pos hs, hmin, Nat.add_sub_cancel_left,
            if_neg (show ¬ tokens.length ≤ start + cs from by omega)]
        obtain ⟨L', hL', h0', hne', hprops'⟩ :=
          ih (start + (cs - ov)) (acc ++ [c]) (by omega) (by omega)
        refine ⟨c :: L', ?_, ?_, ?_, ?_⟩
        · rw [hrec, hL', List.append_assoc, List.singleton_append]
        · intro hle; omega
        · intro _; simp
        · intro j hj
          match j with
          | 0 =>
            simp only [List.get, hcdef]
            refine ⟨by simp, by simp, by simp, ?_, ?_⟩
            · intro _; simpa using hc
            · intro hlen
              have hne : L' ≠ [] := hne' (by omega)
              simp at hlen
              exact absurd hlen hne
          | j' + 1 =>
            have hj' : j' < L'.length := by simpa using hj
            obtain ⟨p1, p2, p3, p4, p5⟩ := hprops' j' hj'
            have harith : start + (cs - ov) + j' * (cs - ov) = start + (j' + 1) * (cs - ov) := by
              rw [Nat.succ_mul]; omega
            refine ⟨?_, ?_, ?_, ?_, ?_⟩
            · simpa [harith] using p1
            · simpa [harith] using p2
            · have h3 := p3
              simp at h3 ⊢
              omega
            · intro hlt
              have := p4 (by simpa using hlt)
              omega
            · intro heq
              have := p5 (by simpa using heq)
              omega
      · -- break case: last window
        have hmin : min (start + cs) tokens.length = tokens.length := by omega
        set sc : Nat := (match acc.getLast? with
          | some prev => prev.end_char - ov * 4
          | none => 0) with hsc
        have heq : chunkTextLoop dec tokens cs ov (f + 1) start acc =
            some (acc ++ [
              { text := dec ((tokens.drop start).take (tokens.length - start))
                chunk_index := acc.length
                token_count := ((tokens.drop start).take (tokens.length - start)).length
                start_char := sc
                end_char := sc + (dec ((tokens.drop start).take (tokens.length - start))).length }]) := by
          rw [chunkTextLoop]
          simp only [if_pos hs, hmin, if_pos (Nat.le_refl tokens.length)]
        have htake : (tokens.drop start).take (tokens.length - start) =
            (tokens.drop start).take cs := by
          have hlen : (tokens.drop start).length = tokens.length - start := by simp
          rw [List.take_of_length_le (by omega), List.take_of_length_le (by omega)]
        rw [heq, htake]
        refine ⟨[_], rfl, ?_, ?_, ?_⟩
        · intro hle; omega
        · intro _; simp
        · intro j hj
          match j with
          | 0 =>
            simp only [List.get]
            refine ⟨by simp, by simp, by simp, ?_, ?_⟩
            · intro h3; simp at h3
            · intro _; omega
    · -- start ≥ length: loop exits, no chunk
      have heq : chunkTextLoop dec tokens cs ov (f + 1) start acc = some acc := by
        rw [chunkTextLoop]; simp only [if_neg hs]
      rw [heq]
      refine ⟨[], by simp, fun _ => rfl, ?_, ?_⟩
      · intro hlt; omega
      · intro j hj; simp at hj

theorem chunkTextLoop_inv (tok : Tokenizer α) (tokens : List α) (cs ov : Nat)
    (htr : ∀ ts, tok.enc (tok.dec ts) = ts) :
    ∀ fuel start acc l,
    (∀ j (hj : j < acc.length),
      (acc.get ⟨j, hj⟩).token_count = (tok.enc (acc.get ⟨j, hj⟩).text).length ∧
      (acc.get ⟨j, hj⟩).chunk_index = j) →
    chunkTextLoop tok.dec tokens cs ov fuel start acc = some l →
    ∀ j (hj : j < l.length),
      (l.get ⟨j, hj⟩).token_count = (tok.enc (l.get ⟨j, hj⟩).text).length ∧
      (l.get ⟨j, hj⟩).chunk_index = j := by
  intro fuel
  induction fuel with
  | zero => intro start acc l hacc hloop; exact absurd hloop (by simp [chunkTextLoop])
  | succ f ih =>
    intro start acc l hacc hloop
    rw [chunkTextLoop] at hloop
    by_cases hs : start < tokens.length
    · rw [if_pos hs] at hloop
      simp only at hloop
      have hextend : ∀ (c : FChunk),
          c.token_count = (tok.enc c.text).length → c.chunk_index = acc.length →
          (∀ j (hj : j < (acc ++ [c]).length),
            ((acc ++ [c]).get ⟨j, hj⟩).token_count =
              (tok.enc ((acc ++ [c]).get ⟨j, hj⟩).text).length ∧
            ((acc ++ [c]).get ⟨j, hj⟩).chunk_index = j) := by
        intro c hc1 hc2 j hj
        rcases Nat.lt_or_ge j acc.length with hlt | hge
        · have := hacc j hlt
          rw [List.get_append _ hlt] at *
          exact this
        · have hj' : j = acc.length := by
            simp at hj
            omega
          subst hj'
          have hgetc : (acc ++ [c]).get ⟨acc.length, hj⟩ = c := by
            simp [List.get_append_right]
          rw [hgetc]
          exact ⟨hc1, hc2⟩
      by_cases hb : tokens.length ≤ min (start + cs) tokens.length
      · rw [if_pos hb] at hloop
        obtain rfl : acc ++ [_] = l := Option.some.inj hloop
        exact hextend _ (by rw [htr]) rfl
      · rw [if_neg hb] at hloop
        exact ih _ _ _ (hextend _ (by rw [htr]) rfl) hloop
    · rw [if_neg hs] at hloop
      obtain rfl : acc = l := Option.some.inj hloop
      exact hacc

theorem mergeLoop_sound [DecidableEq H] [DecidableEq P] (tc : String → Nat)
    (minT maxT : Nat) (R : RawChunk H P → Prop)
    (hJoin : ∀ a b, tc (a ++ "\n\n" ++ b) ≤ tc a + tc b) :
    ∀ (rest : List (RawChunk H P)) (cur : Option (RawChunk H P)) (acc : List (RawChunk H P)),
    (∀ x ∈ rest, R x) → (∀ x ∈ acc, tc x.text ≤ maxT ∨ R x) →
    (∀ u, cur = some u → tc u.text ≤ maxT ∨ R u) →
    ∀ c ∈ mergeLoop tc minT maxT rest cur acc, tc c.text ≤ maxT ∨ R c := by
  intro rest
  induction rest with
  | nil =>
    intro cur acc _ hacc hcur c hc
    match cur with
    | none => exact hacc c hc
    | some u =>
      rw [mergeLoop] at hc
      rcases List.mem_append.mp hc with h | h
      · exact hacc c h
      · rw [List.mem_singleton.mp h]
        exact hcur u rfl
  | cons chunk rest ih =>
    intro cur acc hrest hacc hcur c hc
    match cur with
    | none =>
      rw [mergeLoop] at hc
      exact ih (some chunk) acc (fun x hx => hrest x (List.mem_cons_of_mem _ hx)) hacc
        (fun u hu => Or.inr (by rw [← Option.some.inj hu]; exact hrest chunk (List.mem_cons_self _ _)))
        c hc
    | some u =>
      rw [mergeLoop] at hc
      by_cases hcond : tc u.text < minT ∧ tc u.text + tc chunk.text ≤ maxT
      · rw [if_pos hcond] at hc
        refine ih _ acc (fun x hx => hrest x (List.mem_cons_of_mem _ hx)) hacc ?_ c hc
        intro v hv
        rw [← Option.some.inj hv]
        left
        calc tc (mergePair u chunk).text = tc (u.text ++ "\n\n" ++ chunk.text) := rfl
          _ ≤ tc u.text + tc chunk.text := hJoin _ _
          _ ≤ maxT := hcond.2
      · rw [if_neg hcond] at hc
        refine ih _ (acc ++ [u]) (fun x hx => hrest x (List.mem_cons_of_mem _ hx)) ?_
          (fun v hv => Or.inr (by rw [← Option.some.inj hv]; exact hrest chunk (List.mem_cons_self _ _)))
          c hc
        intro x hx
        rcases List.mem_append.mp hx with h | h
        · exact hacc x h
        · rw [List.mem_singleton.mp h]
          exact hcur u rfl

theorem convertMerged_spec (tc : String → Nat) (hText : H → String) :
    ∀ (l : List (RawChunk H Nat)) (idx pos : Nat),
    (convertMerged tc hText l idx pos).length = l.length ∧
    (∀ j (hj : j < (convertMerged tc hText l idx pos).length) (hj' : j < l.length),
      ((convertMerged tc hText l idx pos).get ⟨j, hj⟩).text = (l.get ⟨j, hj'⟩).text ∧
      ((convertMerged tc hText l idx pos).get ⟨j, hj⟩).token_count = tc (l.get ⟨j, hj'⟩).text ∧
      ((convertMerged tc hText l idx pos).get ⟨j, hj⟩).chunk_index = idx + j) := by
  intro l
  induction l with
  | nil => intro idx pos; exact ⟨rfl, fun j hj _ => absurd hj (by simp [convertMerged])⟩
  | cons chunk rest ih =>
    intro idx pos
    obtain ⟨ihlen, ihprops⟩ := ih (idx + 1) (pos + chunk.text.length)
    refine ⟨by simpa [convertMerged] using ihlen, ?_⟩
    intro j hj hj'
    match j with
    | 0 => exact ⟨rfl, rfl, rfl⟩
    | j' + 1 =>
      have hj2 : j' < (convertMerged tc hText rest (idx + 1) (pos + chunk.text.length)).length := by
        simpa [convertMerged] using hj
      have hj2' : j' < rest.length := by simpa using hj'
      obtain ⟨q1, q2, q3⟩ := ihprops j' hj2 hj2'
      refine ⟨q1, q2, ?_⟩
      rw [show ((convertMerged tc hText (chunk :: rest) idx pos).get ⟨j' + 1, hj⟩) =
        ((convertMerged tc hText rest (idx + 1) (pos + chunk.text.length)).get ⟨j', hj2⟩) from rfl]
      omega

theorem dedupFirstAux_congr [DecidableEq β] :
    ∀ (l s1 s2 : List β), (∀ x, x ∈ s1 ↔ x ∈ s2) →
    dedupFirstAux s1 l = dedupFirstAux s2 l := by
  intro l
  induction l with
  | nil => intro s1 s2 _; rfl
  | cons h t ih =>
    intro s1 s2 hiff
    rw [dedupFirstAux, dedupFirstAux]
    by_cases hm : h ∈ s1
    · rw [if_pos hm, if_pos ((hiff h).mp hm)]
      exact ih s1 s2 hiff
    · rw [if_neg hm, if_neg (fun hc => hm ((hiff h).mpr hc))]
      rw [ih (h :: s1) (h :: s2) (by intro x; simp [hiff x])]

theorem mem_dedupFirstAux [DecidableEq β] :
    ∀ (l seen : List β) (x : β), x ∈ dedupFirstAux seen l ↔ x ∈ l ∧ x ∉ seen := by
  intro l
  induction l with
  | nil => intro seen x; simp [dedupFirstAux]
  | cons h t ih =>
    intro seen x
    by_cases hm : h ∈ seen
    · rw [dedupFirstAux, if_pos hm, ih]
      constructor
      · rintro ⟨hxt, hxs⟩
        exact ⟨List.mem_cons_of_mem _ hxt, hxs⟩
      · rintro ⟨hxht, hxs⟩
        rcases List.mem_cons.mp hxht with rfl | hxt
        · exact absurd hm hxs
        · exact ⟨hxt, hxs⟩
    · rw [dedupFirstAux, if_neg hm]
      simp only [List.mem_cons, ih]
      constructor
      · rintro (rfl | ⟨hxt, hxs⟩)
        · exact ⟨Or.inl rfl, hm⟩
        · exact ⟨Or.inr hxt, fun hx => hxs (Or.inr hx)⟩
      · rintro ⟨(rfl | hxt), hxs⟩
        · exact Or.inl rfl
        · by_cases hxh : x = h
          · exact Or.inl hxh
          · refine Or.inr ⟨hxt, ?_⟩
            intro hc
            rcases hc with h1 | h1
            · exact hxh h1
            · exact hxs h1

theorem nodup_dedupFirstAux [DecidableEq β] :
    ∀ (l seen : List β), (dedupFirstAux seen l).Nodup := by
  intro l
  induction l with
  | nil => intro seen; simp [dedupFirstAux]
  | cons h t ih =>
    intro seen
    by_cases hm : h ∈ seen
    · rw [dedupFirstAux, if_pos hm]
      exact ih seen
    · rw [dedupFirstAux, if_neg hm]
      refine List.nodup_cons.mpr ⟨?_, ih (h :: seen)⟩
      intro hc
      exact absurd (List.mem_cons_self _ _) ((mem_dedupFirstAux t (h :: seen) h).mp hc).2

theorem appendNewElems_eq_aux [DecidableEq β] :
    ∀ (next cur seen : List β), (∀ x, x ∈ cur ↔ x ∈ seen) →
    appendNewElems cur next = cur ++ dedupFirstAux seen next := by
  intro next
  induction next with
  | nil => intro cur seen _; simp [appendNewElems, dedupFirstAux]
  | cons h t ih =>
    intro cur seen hiff
    have hstep : appendNewElems cur (h :: t) =
        appendNewElems (if h ∈ cur then cur else cur ++ [h]) t := by
      simp only [appendNewElems, List.foldl_cons]
    rw [hstep, dedupFirstAux]
    by_cases hm : h ∈ cur
    · rw [if_pos hm, if_pos ((hiff h).mp hm)]
      exact ih cur seen hiff
    · rw [if_neg hm, if_neg (fun hc => hm ((hiff h).mpr hc))]
      rw [ih (cur ++ [h]) (h :: seen) (by intro x; simp [List.mem_append, List.mem_cons, hiff x, or_comm])]
      simp [List.append_assoc]

theorem dedupFirstAux_append_left [DecidableEq β] :
    ∀ (cur : List β) (seen next : List β), cur.Nodup → (∀ x ∈ cur, x ∉ seen) →
    dedupFirstAux seen (cur ++ next) = cur ++ dedupFirstAux (cur ++ seen) next := by
  intro cur
  induction cur with
  | nil => intro seen next _ _; simp
  | cons h t ih =>
    intro seen next hnd hnotin
    have hm : h ∉ seen := hnotin h (List.mem_cons_self _ _)
    rw [List.cons_append, dedupFirstAux, if_neg hm]
    rw [ih (h :: seen) next (List.nodup_cons.mp hnd).2 ?side]
    case side =>
      intro x hx hc
      rcases List.mem_cons.mp hc with rfl | h1
      · exact (List.nodup_cons.mp hnd).1 hx
      · exact hnotin x (List.mem_cons_of_mem _ hx) h1
    rw [dedupFirstAux_congr next (t ++ (h :: seen)) ((h :: t) ++ seen)
      (by intro x; simp [List.mem_append, List.mem_cons]; tauto)]
    rfl

theorem appendNewElems_eq_dedupFirst [DecidableEq β] (cur next : List β) (h : cur.Nodup) :
    appendNewElems cur next = dedupFirst (cur ++ next) := by
  rw [appendNewElems_eq_aux next cur cur (fun x => Iff.rfl)]
  rw [dedupFirst, dedupFirstAux_append_left cur [] next h (by simp)]
  rw [dedupFirstAux_congr next (cur ++ []) cur (by simp)]


theorem mem_dedupFirst [DecidableEq β] (l : List β) (x : β) :
    x ∈ dedupFirst l ↔ x ∈ l := by
  rw [dedupFirst, mem_dedupFirstAux]
  simp

theorem nodup_dedupFirst [DecidableEq β] (l : List β) : (dedupFirst l).Nodup :=
  nodup_dedupFirstAux l []

/-! ## Claim theorems -/

/-- C7: for every input text and every configuration with
`0 ≤ overlap < chunk_size`, over the token sequence obtained by encoding
the text once, `chunk_text` terminates and produces chunks cut from the
successive token windows; consecutive chunks overlap in exactly `overlap`
tokens (the last `overlap` tokens of window `i` equal the first `overlap`
tokens of window `i+1`), every window except the last has exactly
`chunk_size` tokens, and the last window is truncated to the remaining
tokens with no padding. -/
theorem chunk_text_overlap_exact (tok : Tokenizer α) (text : String) (cs ov : Nat)
    (hov : ov < cs) : fallbackWindowSpec tok text cs ov := by
  obtain ⟨L, hL, h0, hne, hprops⟩ :=
    chunkTextLoop_spec tok.dec (tok.enc text) cs ov hov ((tok.enc text).length + 1) 0 []
      (by omega) (by omega)
  rw [List.nil_append] at hL
  refine ⟨L, hL, ?_, ?_, ?_⟩
  · intro i hi
    obtain ⟨p1, p2, p3, _, _⟩ := hprops i hi
    refine ⟨?_, ?_, ?_⟩
    · simpa [tokenWindow] using p1
    · simpa [tokenWindow] using p2
    · simpa using p3
  · intro i hlt
    obtain ⟨_, _, _, p4, _⟩ := hprops i (by omega)
    have hwin : i * (cs - ov) + cs < (tok.enc text).length := by
      have := p4 hlt
      omega
    constructor
    · simp only [tokenWindow, List.length_take, List.length_drop]
      omega
    · have hstep : i * (cs - ov) + (cs - ov) = (i + 1) * (cs - ov) := by
        rw [Nat.succ_mul]
      calc (tokenWindow (tok.enc text) cs ov i).drop (cs - ov)
          = (((tok.enc text).drop (i * (cs - ov))).drop (cs - ov)).take (cs - (cs - ov)) := by
            rw [tokenWindow, List.drop_take]
        _ = ((tok.enc text).drop ((i + 1) * (cs - ov))).take ov := by
            rw [List.drop_drop, hstep]
            congr 1
            omega
        _ = (tokenWindow (tok.enc text) cs ov (i + 1)).take ov := by
            rw [tokenWindow, List.take_take]
            congr 1
            omega
  · intro hneL
    have hlen : 0 < L.length := List.length_pos.mpr hneL
    obtain ⟨_, _, _, _, p5⟩ := hprops (L.length - 1) (by omega)
    have hend := p5 (by omega)
    simp only [tokenWindow]
    rw [List.take_of_length_le]
    simp only [List.length_drop]
    omega

/-- Witness for C7: the overlap property evaluated at a concrete text and
configuration `chunk_size = 3`, `overlap = 1`. -/
theorem chunk_text_overlap_exact_witness : fallbackWindowSpec charTok "abcdef" 3 1 :=
  chunk_text_overlap_exact charTok "abcdef" 3 1 (by decide)

/-- C5: every chunk produced by either chunking path satisfies
`token_count = tokenizer count of its text` and carries a dense,
zero-based `chunk_index`.  For the Docling path this is unconditional;
for the fallback path it uses the specification's tokenizer contract
(`decode` then `encode` restores the token sequence — "deterministic and
reversible"), since the fallback records the window length as
`token_count` while storing the decoded window as `text`. -/
theorem chunking_token_count_invariant [DecidableEq H] (tok : Tokenizer α) (hText : H → String)
    (htr : ∀ ts, tok.enc (tok.dec ts) = ts) :
    (∀ max_tokens min_tokens raw, hybridTokenInvariant tok hText max_tokens min_tokens raw) ∧
    (∀ text chunk_size overlap, fallbackTokenInvariant tok text chunk_size overlap) := by
  constructor
  · intro maxT minT raw
    simp only [hybridTokenInvariant, chunk_with_hybrid]
    intro j hj
    obtain ⟨clen, cprops⟩ := convertMerged_spec (fun s => (tok.enc s).length) hText
      (merged_chunks (fun s => (tok.enc s).length) minT maxT raw) 0 0
    have hj' : j < (merged_chunks (fun s => (tok.enc s).length) minT maxT raw).length := by
      rw [← clen]; exact hj
    obtain ⟨q1, q2, q3⟩ := cprops j hj hj'
    refine ⟨?_, ?_⟩
    · rw [q2, q1]
    · rw [q3]
      omega
  · intro text cs ov
    simp only [fallbackTokenInvariant]
    intro chunks hsome j hj
    exact chunkTextLoop_inv tok (tok.enc text) cs ov htr ((tok.enc text).length + 1) 0 []
      chunks (fun i hi => absurd hi (by simp)) hsome j hj

/-- Witness for C5: the invariant instantiated at the reversible
code-point tokenizer. -/
theorem chunking_token_count_invariant_witness :
    (∀ max_tokens min_tokens raw,
      hybridTokenInvariant charTok (fun h : String => h) max_tokens min_tokens raw) ∧
    (∀ text chunk_size overlap, fallbackTokenInvariant charTok text chunk_size overlap) :=
  chunking_token_count_invariant charTok (fun h => h) (fun _ => rfl)

/-- C6: `chunk_text` performs no validation of the overlap configuration.
With `overlap = chunk_size` and a text longer than one window the window
never advances and the Python loop never terminates (the model returns
`none` for every fuel bound), and with a text that fits in one window the
call silently succeeds — in neither case is a validation error raised. -/
theorem chunk_text_no_overlap_validation :
    (∀ fuel acc, chunkTextLoop charTok.dec (charTok.enc "aaaaa") 4 4 fuel 0 acc = none) ∧
    chunk_text charTok "aaaaa" 4 4 = none ∧
    chunk_text charTok "aaa" 4 4 = some [⟨"aaa", 0, 3, 0, 3⟩] := by
  have hloop : ∀ fuel acc, chunkTextLoop charTok.dec (charTok.enc "aaaaa") 4 4 fuel 0 acc = none := by
    intro fuel
    induction fuel with
    | zero => intro acc; rfl
    | succ f ih =>
      intro acc
      rw [chunkTextLoop]
      rw [if_pos (by decide : (0 : Nat) < (charTok.enc "aaaaa").length)]
      rw [if_neg (by decide :
        ¬ (charTok.enc "aaaaa").length ≤ min (0 + 4) (charTok.enc "aaaaa").length)]
      exact ih _
  exact ⟨hloop, hloop _ [], by decide⟩

/-- C2 (amended): the merge decision of lines 124–125 bounds the *sum* of
the constituents' token counts by `max_tokens`; therefore, whenever the
tokenizer counts the joined text `a ++ "\n\n" ++ b` with at most the sum
of the counts of `a` and `b`, every output chunk either respects the
ceiling or is one of the input chunks passed through unmerged.  (Without
that join condition the ceiling can be exceeded by the separator's
tokens — see the counterexample.) -/
theorem chunk_with_hybrid_token_ceiling [DecidableEq H] (tok : Tokenizer α) (hText : H → String)
    (max_tokens min_tokens : Nat) (raw : List (RawChunk H Nat))
    (hJoin : ∀ a b, (tok.enc (a ++ "\n\n" ++ b)).length ≤ (tok.enc a).length + (tok.enc b).length) :
    ∀ d ∈ chunk_with_hybrid tok hText max_tokens min_tokens raw,
      d.token_count ≤ max_tokens ∨
      ∃ c ∈ raw, d.text = c.text ∧ d.token_count = (tok.enc c.text).length := by
  intro d hd
  rw [chunk_with_hybrid] at hd
  obtain ⟨j, hget⟩ := List.mem_iff_get.mp hd
  obtain ⟨clen, cprops⟩ := convertMerged_spec (fun s => (tok.enc s).length) hText
    (merged_chunks (fun s => (tok.enc s).length) min_tokens max_tokens raw) 0 0
  have hj' : j.1 < (merged_chunks (fun s => (tok.enc s).length) min_tokens max_tokens raw).length := by
    rw [← clen]; exact j.2
  obtain ⟨q1, q2, _⟩ := cprops j.1 j.2 hj'
  have hmem : (merged_chunks (fun s => (tok.enc s).length) min_tokens max_tokens raw).get ⟨j.1, hj'⟩ ∈
      merged_chunks (fun s => (tok.enc s).length) min_tokens max_tokens raw :=
    List.get_mem _ _ _
  have hsound := mergeLoop_sound (fun s => (tok.enc s).length) min_tokens max_tokens
    (fun x => x ∈ raw) hJoin raw none [] (fun x hx => hx)
    (fun x hx => absurd hx (List.not_mem_nil x)) (fun u hu => Option.noConfusion hu)
    _ hmem
  rcases hsound with hle | hmemraw
  · left
    rw [← hget, q2]
    exact hle
  · right
    refine ⟨_, hmemraw, ?_, ?_⟩
    · rw [← hget, q1]
    · rw [← hget, q2]

/-- Witness for C2: the ceiling property at the `a`-counting tokenizer,
whose count is additive across the `"\n\n"` join, applied to the single
merged output chunk of the demo input. -/
theorem chunk_with_hybrid_token_ceiling_witness :
    (⟨"aa\n\nb", 0, 2, 0, 5, [], [], [], []⟩ : CChunk).token_count ≤ 10 ∨
    ∃ c ∈ rawJoinDemo, (⟨"aa\n\nb", 0, 2, 0, 5, [], [], [], []⟩ : CChunk).text = c.text ∧
      (⟨"aa\n\nb", 0, 2, 0, 5, [], [], [], []⟩ : CChunk).token_count =
        (countATok.enc c.text).length :=
  chunk_with_hybrid_token_ceiling countATok (fun h => h) 10 5 rawJoinDemo (by
    intro a b
    simp only [countATok, String.data_append, List.filter_append, List.map_append,
      List.length_append, List.length_map]
    have h2 : (List.filter (fun ch => ch = 'a') (['\n', '\n'] : List Char)).length = 0 := by
      decide
    omega)
    ⟨"aa\n\nb", 0, 2, 0, 5, [], [], [], []⟩ (by decide)

/-- Counterexample for C2 as frozen: with the code-point tokenizer, raw
chunks of 4 and 6 tokens (both within the ceiling of 10) are merged —
4 < min 5 and 4 + 6 ≤ 10 — but the joined text gains the two separator
tokens, so the single output chunk reports 12 > 10 tokens while not being
a pass-through input chunk. -/
theorem chunk_with_hybrid_ceiling_counterexample :
    (∀ c ∈ rawOversizeDemo, (charTok.enc c.text).length ≤ 10) ∧
    (chunk_with_hybrid charTok (fun h : String => h) 10 5 rawOversizeDemo).map
      (fun d => (d.text, d.token_count)) = [("aaaa\n\nbbbbbb", 12)] ∧
    ¬ (12 ≤ 10) ∧
    (∀ c ∈ rawOversizeDemo, c.text ≠ "aaaa\n\nbbbbbb") := by decide

/-- C4 (amended): provided the accumulating chunk's own heading list is
duplicate-free, a merge step yields exactly the first-seen-order
deduplication of the concatenated heading lists (so `[X]` merged with
`[X, Y]` gives `[X, Y]`, never `[X, X, Y]`), and likewise the page-number
lists merge to their duplicate-free union.  (Duplicates already inside
the accumulating chunk's list are retained as-is — see the
counterexample.) -/
theorem mergePair_metadata_reconciliation [DecidableEq H] [DecidableEq P]
    (cur next : RawChunk H P) (hH : cur.headings.Nodup) (hP : cur.page_numbers.Nodup) :
    (mergePair cur next).headings = dedupFirst (cur.headings ++ next.headings) ∧
    (mergePair cur next).headings.Nodup ∧
    (∀ x, x ∈ (mergePair cur next).headings ↔ x ∈ cur.headings ∨ x ∈ next.headings) ∧
    (mergePair cur next).page_numbers = dedupFirst (cur.page_numbers ++ next.page_numbers) ∧
    (mergePair cur next).page_numbers.Nodup ∧
    (∀ x, x ∈ (mergePair cur next).page_numbers ↔ x ∈ cur.page_numbers ∨ x ∈ next.page_numbers) := by
  have e1 : (mergePair cur next).headings = dedupFirst (cur.headings ++ next.headings) :=
    appendNewElems_eq_dedupFirst _ _ hH
  have e2 : (mergePair cur next).page_numbers =
      dedupFirst (cur.page_numbers ++ next.page_numbers) :=
    appendNewElems_eq_dedupFirst _ _ hP
  refine ⟨e1, ?_, ?_, e2, ?_, ?_⟩
  · rw [e1]; exact nodup_dedupFirst _
  · intro x; rw [e1, mem_dedupFirst, List.mem_append]
  · rw [e2]; exact nodup_dedupFirst _
  · intro x; rw [e2, mem_dedupFirst, List.mem_append]

/-- Witness for C4: the specification's own example — headings `[X]`
merged with `[X, Y]`, pages `[1]` with `[1, 2]`. -/
theorem mergePair_metadata_reconciliation_witness :
    (mergePair mergeDemoA mergeDemoB).headings =
      dedupFirst (mergeDemoA.headings ++ mergeDemoB.headings) ∧
    (mergePair mergeDemoA mergeDemoB).headings.Nodup ∧
    (∀ x, x ∈ (mergePair mergeDemoA mergeDemoB).headings ↔
      x ∈ mergeDemoA.headings ∨ x ∈ mergeDemoB.headings) ∧
    (mergePair mergeDemoA mergeDemoB).page_numbers =
      dedupFirst (mergeDemoA.page_numbers ++ mergeDemoB.page_numbers) ∧
    (mergePair mergeDemoA mergeDemoB).page_numbers.Nodup ∧
    (∀ x, x ∈ (mergePair mergeDemoA mergeDemoB).page_numbers ↔
      x ∈ mergeDemoA.page_numbers ∨ x ∈ mergeDemoB.page_numbers) :=
  mergePair_metadata_reconciliation mergeDemoA mergeDemoB (by decide) (by decide)

/-- Counterexample for C4 as frozen: when the accumulating chunk's heading
list already contains a duplicate (`[X, X]`), the merge loop only
deduplicates the incoming headings against it, so the result keeps the
duplicate — it is not the deduplicated concatenation. -/
theorem mergePair_headings_counterexample :
    (mergePair (⟨"t1", ["X", "X"], [], [], []⟩ : RawChunk String Nat)
        ⟨"t2", ["Y"], [], [], []⟩).headings = ["X", "X", "Y"] ∧
    dedupFirst ((["X", "X"] : List String) ++ ["Y"]) = ["X", "Y"] ∧
    (["X", "X", "Y"] : List String) ≠ ["X", "Y"] := by decide

/-- C8: when the vector search returns zero chunks (and the query was not
served from the rag cache — the search only runs on a cache miss),
`generate_answer` returns the canned "not enough information" response
with `chunks_used = 0` and an empty sources list, leaves the rag cache
untouched, and makes no generation-model call (the call counter is 0). -/
theorem generate_answer_zero_chunks {Score : Type} (cacheEnabled : Bool)
    (ragCache : String → Option (RagCore Score)) (ragKey : String → Nat → String)
    (fmtScore : Score → String) (llm : String → String → String)
    (llmUsage : Option LlmUsage) (embUsage : Option Nat)
    (question : String) (top_k : Nat) (include_sources : Bool)
    (hmiss : cacheEnabled = false ∨ ragCache (ragKey question top_k) = none) :
    generate_answer cacheEnabled ragCache ragKey fmtScore [] llm llmUsage embUsage
      question top_k include_sources =
    ({ core :=
        { question := question
          answer := noInfoAnswer
          chunks_used := 0
          model := "gpt-4-turbo-preview"
          usage := none
          sources := some [] }
       cache_hit := none
       cost_saved := none }, ragCache, 0) := by
  rcases hmiss with h | h
  · subst h
    simp [generate_answer]
  · cases cacheEnabled
    · simp [generate_answer]
    · simp [generate_answer, h]

/-- Witness for C8: the zero-chunk response at a concrete question with
caching disabled. -/
theorem generate_answer_zero_chunks_witness :
    generate_answer false (fun _ => (none : Option (RagCore Nat)))
      (fun q k => q ++ toString k) (fun s => toString s) []
      (fun _ _ => "ans") none none "any questions?" 3 true =
    ({ core :=
        { question := "any questions?"
          answer := noInfoAnswer
          chunks_used := 0
          model := "gpt-4-turbo-preview"
          usage := none
          sources := some [] }
       cache_hit := none
       cost_saved := none }, (fun _ => (none : Option (RagCore Nat))), 0) :=
  generate_answer_zero_chunks false (fun _ => none) (fun q k => q ++ toString k)
    (fun s => toString s) (fun _ _ => "ans") none none "any questions?" 3 true (Or.inl rfl)

/-- No cache-artifact file name starts like the original-document slot:
`document.<ext>` begins with `d`. -/
theorem document_file_ne (ext fname : String) (h : fname.data.head? ≠ some 'd') :
    fname ≠ "document." ++ ext := by
  intro he
  have h2 := congrArg String.data he
  rw [String.data_append] at h2
  rw [show "document.".data = 'd' :: "ocument.".data from rfl] at h2
  have h3 := congrArg List.head? h2
  simp at h3
  exact h h3

/-- C9: the local backend's existence check is all-or-nothing over the
three cache artifacts — it is true iff `chunks.json`, `embeddings.npy`
and `metadata.json` are all present; saving chunks alone (with embeddings
still absent) leaves it false; saving all three makes it true; and saving
the original document bytes never affects it. -/
theorem exists_check_all_or_nothing (fs : String → String → Bool)
    (document_id ext dext : String) :
    (LocalStorageBackend.exists_check fs document_id ext = true ↔
      (fs document_id "chunks.json" = true ∧ fs document_id "embeddings.npy" = true ∧
        fs document_id "metadata.json" = true)) ∧
    (fs document_id "embeddings.npy" = false →
      LocalStorageBackend.exists_check
        (LocalStorageBackend.save_chunks fs document_id) document_id ext = false) ∧
    (LocalStorageBackend.exists_check
      (LocalStorageBackend.save_metadata
        (LocalStorageBackend.save_embeddings
          (LocalStorageBackend.save_chunks fs document_id) document_id) document_id)
      document_id ext = true) ∧
    (LocalStorageBackend.exists_check
      (LocalStorageBackend.save_document fs document_id dext) document_id ext =
      LocalStorageBackend.exists_check fs document_id ext) := by
  have e1 : ("embeddings.npy" : String) ≠ "chunks.json" := by decide
  have e2 : ("metadata.json" : String) ≠ "chunks.json" := by decide
  have e3 : ("metadata.json" : String) ≠ "embeddings.npy" := by decide
  have e4 : ("chunks.json" : String) ≠ "metadata.json" := by decide
  have e5 : ("embeddings.npy" : String) ≠ "metadata.json" := by decide
  have e6 : ("chunks.json" : String) ≠ "embeddings.npy" := by decide
  have n1 : ("chunks.json" : String) ≠ "document." ++ dext :=
    document_file_ne dext _ (by decide)
  have n2 : ("embeddings.npy" : String) ≠ "document." ++ dext :=
    document_file_ne dext _ (by decide)
  have n3 : ("metadata.json" : String) ≠ "document." ++ dext :=
    document_file_ne dext _ (by decide)
  refine ⟨?_, ?_, ?_, ?_⟩
  · simp [LocalStorageBackend.exists_check, Bool.and_eq_true, and_assoc]
  · intro hemb
    simp [LocalStorageBackend.exists_check, LocalStorageBackend.save_chunks, fsSave,
      e1, hemb]
  · simp [LocalStorageBackend.exists_check, LocalStorageBackend.save_chunks,
      LocalStorageBackend.save_embeddings, LocalStorageBackend.save_metadata, fsSave,
      e1, e2, e3, e4, e5, e6]
  · simp [LocalStorageBackend.exists_check, LocalStorageBackend.save_document, fsSave,
      n1, n2, n3]

/-- Witness for C9: on an empty filesystem, saving only chunks leaves the
check false; saving all three artifacts makes it true; the original
document slot is ignored. -/
theorem exists_check_all_or_nothing_witness :
    (LocalStorageBackend.exists_check (fun _ _ => false) "d41" "pdf" = true ↔
      ((fun (_ _ : String) => false) "d41" "chunks.json" = true ∧
        (fun (_ _ : String) => false) "d41" "embeddings.npy" = true ∧
        (fun (_ _ : String) => false) "d41" "metadata.json" = true)) ∧
    ((fun (_ _ : String) => false) "d41" "embeddings.npy" = false →
      LocalStorageBackend.exists_check
        (LocalStorageBackend.save_chunks (fun _ _ => false) "d41") "d41" "pdf" = false) ∧
    (LocalStorageBackend.exists_check
      (LocalStorageBackend.save_metadata
        (LocalStorageBackend.save_embeddings
          (LocalStorageBackend.save_chunks (fun _ _ => false) "d41") "d41") "d41")
      "d41" "pdf" = true) ∧
    (LocalStorageBackend.exists_check
      (LocalStorageBackend.save_document (fun _ _ => false) "d41" "pdf") "d41" "pdf" =
      LocalStorageBackend.exists_check (fun _ _ => false) "d41" "pdf") :=
  exists_check_all_or_nothing (fun _ _ => false) "d41" "pdf" "pdf"

/-- C10: `add_documents` stores, as the `text` metadata of every prepared
vector, the first 1000 code points of the chunk's text; consequently every
chunk formatted by `search` over such vectors carries a text that is a
1000-point prefix of some original chunk's text, and the source previews
built from those search results are prefixes of the original text (200
points plus the ellipsis). -/
theorem add_documents_text_truncation {E Score : Type}
    (dumpsStr : List String → String) (dumpsNat : List Nat → String)
    (chunks : List CChunk) (embeddings : List E) (filename : String)
    (vs : List (String × E × VecMeta)) (query_matches : List (SearchMatch Score))
    (hok : add_documents dumpsStr dumpsNat chunks embeddings filename = .ok vs)
    (hm : ∀ m ∈ query_matches, ∃ v ∈ vs, m.metadata = v.2.2) :
    (∀ v ∈ vs, ∃ c ∈ chunks, v.2.2.text = pyTake c.text 1000) ∧
    (∀ r ∈ (VectorService.search query_matches).chunks, ∃ c ∈ chunks,
      r.text = pyTake c.text 1000 ∧ r.text.data.length ≤ 1000) ∧
    (∀ s ∈ RAGService.format_sources (VectorService.search query_matches).chunks,
      ∃ c ∈ chunks, s.preview = pyTake c.text 200 ++ "...") := by
  rw [add_documents] at hok
  split at hok
  · simp at hok
  · have hmap := Except.ok.inj hok
    subst hmap
    have hvs : ∀ v ∈ (chunks.zip embeddings).map (fun ce =>
        (filename ++ "_" ++ toString ce.1.chunk_index, ce.2,
          ({ filename := filename
             chunk_index := ce.1.chunk_index
             token_count := ce.1.token_count
             text := pyTake ce.1.text 1000
             start_char := ce.1.start_char
             end_char := ce.1.end_char
             headings := dumpsStr ce.1.headings
             page_numbers := dumpsNat ce.1.page_numbers
             has_context := decide (ce.1.headings.length > 0) } : VecMeta))),
        ∃ c ∈ chunks, v.2.2.text = pyTake c.text 1000 := by
      intro v hv
      obtain ⟨ce, hce, hfv⟩ := List.mem_map.mp hv
      exact ⟨ce.1, (List.of_mem_zip hce).1, by rw [← hfv]⟩
    refine ⟨hvs, ?_, ?_⟩
    · intro r hr
      simp only [VectorService.search, search_format] at hr
      obtain ⟨m, hmq, hfr⟩ := List.mem_map.mp hr
      obtain ⟨v, hv, hmv⟩ := hm m hmq
      obtain ⟨c, hc, htext⟩ := hvs v hv
      refine ⟨c, hc, ?_, ?_⟩
      · rw [← hfr]
        show m.metadata.text = pyTake c.text 1000
        rw [hmv, htext]
      · rw [← hfr]
        show (m.metadata.text).data.length ≤ 1000
        rw [hmv, htext, pyTake]
        simpa using Nat.min_le_left 1000 c.text.data.length
    · intro s hs
      simp only [RAGService.format_sources] at hs
      obtain ⟨r, hr, hfs⟩ := List.mem_map.mp hs
      simp only [VectorService.search, search_format] at hr
      obtain ⟨m, hmq, hfr⟩ := List.mem_map.mp hr
      obtain ⟨v, hv, hmv⟩ := hm m hmq
      obtain ⟨c, hc, htext⟩ := hvs v hv
      refine ⟨c, hc, ?_⟩
      rw [← hfs]
      show pyTake r.text 200 ++ "..." = pyTake c.text 200 ++ "..."
      congr 1
      rw [← hfr]
      show pyTake m.metadata.text 200 = pyTake c.text 200
      rw [hmv, htext]
      simp [pyTake, List.take_take]

/-- Witness for C10: a concrete one-chunk upsert whose stored metadata,
search result and source preview all evaluate as the theorem states. -/
theorem add_documents_text_truncation_witness :
    (∀ v ∈ [("doc.txt_0", (7 : Nat), vecMetaDemo)],
      ∃ c ∈ [vecChunkDemo], v.2.2.text = pyTake c.text 1000) ∧
    (∀ r ∈ (VectorService.search [(⟨"doc.txt_0", (5 : Nat), vecMetaDemo⟩ : SearchMatch Nat)]).chunks,
      ∃ c ∈ [vecChunkDemo], r.text = pyTake c.text 1000 ∧ r.text.data.length ≤ 1000) ∧
    (∀ s ∈ RAGService.format_sources
        (VectorService.search [(⟨"doc.txt_0", (5 : Nat), vecMetaDemo⟩ : SearchMatch Nat)]).chunks,
      ∃ c ∈ [vecChunkDemo], s.preview = pyTake c.text 200 ++ "...") :=
  add_documents_text_truncation (fun _ => "[]") (fun _ => "[]") [vecChunkDemo] [7]
    "doc.txt" [("doc.txt_0", 7, vecMetaDemo)] [⟨"doc.txt_0", 5, vecMetaDemo⟩]
    (by rfl) (by decide)

/-- C1 (amended): a resolution that returns a `rejected` or `executed`
outcome removes the ledger entry, and afterwards resolving the same
identifier again — under any execution function, cache configuration and
approval flag — returns the 'Query ID not found' error result without
touching the state (in particular the SQL is never executed again).  On
execution failure, however, the entry is retained (see the
counterexample), so removal is tied to a resolved outcome, not to the
mere execution attempt. -/
theorem execute_approved_query_single_resolution {Row : Type}
    (runSql : String → Except String (List Row)) (cacheEnabled : Bool)
    (resultKey : String → String) (now : String) (st : SqlState Row) (query_id : String)
    (approved : Bool) (r1 : ExecResult Row) (st1 : SqlState Row)
    (runSql2 : String → Except String (List Row)) (ce2 : Bool) (rk2 : String → String)
    (now2 : String) (approved2 : Bool)
    (hrun : execute_approved_query runSql cacheEnabled resultKey now st query_id approved =
      (r1, st1))
    (hres : r1.resolved = true) :
    st1.pending query_id = none ∧
    execute_approved_query runSql2 ce2 rk2 now2 st1 query_id approved2 = (.notFound, st1) := by
  have hnone : st1.pending query_id = none := by
    simp only [execute_approved_query] at hrun
    split at hrun
    case h_1 hp =>
      injection hrun with h1 h2
      subst h2
      exact hp
    case h_2 qi hp =>
      split at hrun
      · injection hrun with h1 h2
        subst h2
        simp [delKey]
      · split at hrun
        case h_1 ce hcache =>
          injection hrun with h1 h2
          subst h2
          simp [delKey]
        case h_2 hcache =>
          split at hrun
          case h_1 results hr =>
            injection hrun with h1 h2
            subst h2
            simp [delKey]
          case h_2 e hr =>
            injection hrun with h1 h2
            rw [← h1] at hres
            simp [ExecResult.resolved] at hres
  refine ⟨hnone, ?_⟩
  simp [execute_approved_query, hnone]

/-- Witness for C1 (amended): a successful approved execution removes the
entry, and the second resolution of the same identifier returns the
not-found result unchanged. -/
theorem execute_approved_query_single_resolution_witness :
    ((execute_approved_query (fun _ => Except.ok [(7 : Nat)]) true id "t1"
        singleSelectPending "q1" true).2.pending "q1" = none) ∧
    (execute_approved_query (fun _ => Except.ok [(9 : Nat)]) false id "t2"
        (execute_approved_query (fun _ => Except.ok [(7 : Nat)]) true id "t1"
          singleSelectPending "q1" true).2 "q1" true =
      (.notFound, (execute_approved_query (fun _ => Except.ok [(7 : Nat)]) true id "t1"
          singleSelectPending "q1" true).2)) :=
  execute_approved_query_single_resolution (fun _ => Except.ok [7]) true id "t1"
    singleSelectPending "q1" true _ _ (fun _ => Except.ok [9]) false id "t2" true
    rfl (by decide)

/-- Counterexample for C1 as frozen: when the execution attempt fails, the
error branch of lines 630–635 returns without deleting the pending entry;
the entry is still present afterwards, and a second resolution of the same
identifier does not return 'Query ID not found' — it executes the SQL
again (here successfully). -/
theorem execute_approved_query_failure_retains_entry :
    ((execute_approved_query (fun _ => Except.error "connection refused") true id "t1"
        singleSelectPending "q1" true).1 = .execError "q1" "connection refused") ∧
    (((execute_approved_query (fun _ => Except.error "connection refused") true id "t1"
        singleSelectPending "q1" true).2.pending "q1").isSome = true) ∧
    ((execute_approved_query (fun _ => Except.ok [(42 : Nat)]) true id "t2"
        (execute_approved_query (fun _ => Except.error "connection refused") true id "t1"
          singleSelectPending "q1" true).2 "q1" true).1 =
      .executed "q1" "how many customers" "SELECT COUNT(*) FROM customers" [42] 1
        false none) := by
  decide

/-- C3: a row set reaches the `sql_result` cache only through an approved
resolution of a pending query whose SQL passes the lexical read-only check
(trim, upper-case, `SELECT` prefix); the generation stage never touches
the `sql_result` cache.  In particular non-SELECT statements are never
cached at the result stage, regardless of execution success. -/
theorem sql_result_cache_select_only {Row : Type}
    (runSql : String → Except String (List Row)) (cacheEnabled : Bool)
    (resultKey : String → String) (now : String) (st : SqlState Row)
    (query_id : String) (approved : Bool)
    (genSql : Except String String) (newId : String) (genCacheEnabled : Bool)
    (genKey : String → String) (gnow : String) (isTrained : Bool) (question : String) :
    (∀ k, (execute_approved_query runSql cacheEnabled resultKey now st
        query_id approved).2.sql_result_cache k ≠ st.sql_result_cache k →
      ∃ qi, st.pending query_id = some qi ∧ isSelectQuery qi.sql = true ∧ approved = true) ∧
    (∀ gr st2, generate_sql_for_approval genSql newId genCacheEnabled genKey gnow
        isTrained st question = .ok (gr, st2) →
      ∀ k, st2.sql_result_cache k = st.sql_result_cache k) := by
  constructor
  · intro k hk
    cases hp : st.pending query_id with
    | none => simp [execute_approved_query, hp] at hk
    | some qi =>
      by_cases ha : approved = true
      · by_cases hsel : isSelectQuery qi.sql = true
        · exact ⟨qi, rfl, hsel, ha⟩
        · exfalso
          have hb : isSelectQuery qi.sql = false := by
            revert hsel; cases isSelectQuery qi.sql <;> simp
          cases hr : runSql qi.sql with
          | ok results => simp [execute_approved_query, hp, ha, hb, hr] at hk
          | error e => simp [execute_approved_query, hp, ha, hb, hr] at hk
      · have ha' : approved = false := by revert ha; cases approved <;> simp
        simp [execute_approved_query, hp, ha'] at hk
  · intro gr st2 hgen k
    cases isTrained with
    | false => simp [generate_sql_for_approval] at hgen
    | true =>
      cases hc : (if genCacheEnabled then st.sql_gen_cache (genKey question) else none) with
      | some ce =>
        simp [generate_sql_for_approval, hc] at hgen
        rw [← hgen.2]
      | none =>
        cases genSql with
        | error e => simp [generate_sql_for_approval, hc] at hgen
        | ok sql =>
          simp [generate_sql_for_approval, hc] at hgen
          rw [← hgen.2]
          cases genCacheEnabled <;> simp

/-- Witness for C3: a concrete approved SELECT execution writes its rows
under the result key, and the theorem recovers that the pending SQL passed
the read-only check. -/
theorem sql_result_cache_select_only_witness :
    ∃ qi, singleSelectPending.pending "q1" = some qi ∧
      isSelectQuery qi.sql = true ∧ true = true :=
  (sql_result_cache_select_only (fun _ => Except.ok [(7 : Nat)]) true id "t1"
    singleSelectPending "q1" true (Except.ok "SELECT 1") "n1" true id "t2" true
    "how many customers").1
    "SELECT COUNT(*) FROM customers" (by decide)
